import Mathlib

/-!
Verification of the natural-language specification of
`src/rhizoscan/root/pipeline/arabidopsis.py` (functions `segment_image` and
`detect_leaves`) against a shallow embedding of that code.

Modelling conventions:
  - a 2-D numpy array is an `Arr α`: explicit `rows`/`cols` plus a total
    `data : ℕ → ℕ → α` function (out-of-bounds reads are harmless junk,
    never used by the claims);
  - pixel intensities are ℚ (the source uses numpy floats; every claim is
    structural, none depends on float rounding);
  - the external collaborators (`scipy.ndimage.gaussian_filter`,
    `remove_background`, `binary_erosion`, `segment_root_image`,
    `scipy.ndimage.label`, `clean_label`) are parameters gathered in a
    `Collab` record, constrained only by the documented contracts a given
    claim needs;
  - `scipy.ndimage.find_objects` on a boolean mask is modelled concretely
    (the mask is read as a 0/1 label array, so it yields the bounding box
    of all true pixels when one exists, and the empty list otherwise);
  - numpy basic slice indexing (`image[bbox]`) returns a VIEW of the
    underlying buffer, therefore the in-place write
    `img[pmask] = smooth_img[pmask]` writes through into the caller's
    `image`; the embedding makes this visible by returning the caller's
    buffer after the call (`SegOut.imageAfter`);
  - the code is Python 2 (`print` statements and `basestring` appear in the
    commented-out driver), so `255/plant_number` on ints is floor division;
  - Python exceptions are the `PyErr` inductive; `segment_image` returns
    `Except PyErr SegOut`.
-/

/-- A 2-D array: explicit shape plus a total indexing function (row, col). -/
structure Arr (α : Type) where
  rows : ℕ
  cols : ℕ
  data : ℕ → ℕ → α

/-- The shape (rows, cols) of an array. -/
def Arr.shape {α : Type} (a : Arr α) : ℕ × ℕ := (a.rows, a.cols)

/-- Python exceptions that the modelled code paths can raise.  `shapeError`
is the error class named by the spec; the code under verification never
raises it, but it is needed to state claim C2. -/
inductive PyErr where
  | valueError
  | indexError
  | shapeError
deriving DecidableEq

/-- Maximum of a list of rationals, `none` on the empty list (numpy's
`.max()` raises `ValueError` on a zero-size array). -/
def listMax : List ℚ → Option ℚ
  | [] => none
  | v :: vs => some (vs.foldl max v)

/-- All in-bounds entries of an array, row-major. -/
def Arr.cells (a : Arr ℚ) : List ℚ :=
  (List.range a.rows).flatMap fun r => (List.range a.cols).map fun c => a.data r c

/-- `pmask.max()`: maximum over all in-bounds entries. -/
def maxCells (a : Arr ℚ) : Option ℚ := listMax a.cells

/-- `pmask == m` elementwise: the binarization `pmask == pmask.max()`. -/
def binarize (a : Arr ℚ) (m : ℚ) : Arr Bool :=
  ⟨a.rows, a.cols, fun r c => decide (a.data r c = m)⟩

/-- A bounding box: a pair of half-open index ranges
(`r0:r1` rows, `c0:c1` columns), modelling the slice pair returned by
`scipy.ndimage.find_objects`. -/
structure BBox where
  r0 : ℕ
  r1 : ℕ
  c0 : ℕ
  c1 : ℕ
deriving DecidableEq

/-- Membership of a (row, col) position in a bounding box. -/
def BBox.containsP (b : BBox) (p : ℕ × ℕ) : Prop :=
  b.r0 ≤ p.1 ∧ p.1 < b.r1 ∧ b.c0 ≤ p.2 ∧ p.2 < b.c1

instance (b : BBox) (p : ℕ × ℕ) : Decidable (b.containsP p) := by
  unfold BBox.containsP; infer_instance

/-- `a[bbox]`: numpy basic slicing by a pair of slices.  The result reads
through to `a`'s entries, offset by the slice starts. -/
def Arr.crop {α : Type} (a : Arr α) (b : BBox) : Arr α :=
  ⟨b.r1 - b.r0, b.c1 - b.c0, fun r c => a.data (b.r0 + r) (b.c0 + c)⟩

/-- The set of in-bounds true pixels of a boolean mask. -/
def trueSet (m : Arr Bool) : Finset (ℕ × ℕ) :=
  (Finset.range m.rows ×ˢ Finset.range m.cols).filter fun p => m.data p.1 p.2 = true

/-- The bounding box of the true pixels of a nonempty boolean mask:
componentwise min/max over the true positions, upper bounds exclusive. -/
def boxOf (m : Arr Bool) (h : (trueSet m).Nonempty) : BBox :=
  ⟨((trueSet m).image Prod.fst).min' (h.image Prod.fst),
   ((trueSet m).image Prod.fst).max' (h.image Prod.fst) + 1,
   ((trueSet m).image Prod.snd).min' (h.image Prod.snd),
   ((trueSet m).image Prod.snd).max' (h.image Prod.snd) + 1⟩

/-- `scipy.ndimage.find_objects` applied to a boolean mask: the mask is
read as a label array with labels 0/1, so the result is a one-element list
holding the bounding box of all true pixels when any exists, and the empty
list otherwise (connectivity plays no role). -/
def find_objects (m : Arr Bool) : List BBox :=
  if h : (trueSet m).Nonempty then [boxOf m h] else []

/-- The PIL output format recorded in a serialization policy. -/
inductive PilFormat where
  | png
deriving DecidableEq

/-- The storage dtype recorded in a serialization policy. -/
inductive SerDtype where
  | uint8
deriving DecidableEq

/-- The serialization policy attached by `set_serializer`: output format,
storage dtype, linear scale factor. -/
structure SerPolicy where
  pil_format : PilFormat
  ser_dtype : SerDtype
  ser_scale : ℚ
deriving DecidableEq

/-- The policy `segment_image` attaches to its root mask:
`set_serializer(pil_format='PNG', ser_dtype='uint8', ser_scale=255)`. -/
def segmentImagePolicy : SerPolicy := ⟨PilFormat.png, SerDtype.uint8, 255⟩

/-- The policy `detect_leaves` attaches to its seed map:
`set_serializer(pil_format='PNG', ser_dtype='uint8', ser_scale=255/plant_number)`.
The source is Python 2, so `255/plant_number` on an int `plant_number` is
floor division. -/
def detectLeavesPolicy (plant_number : ℕ) : SerPolicy :=
  ⟨PilFormat.png, SerDtype.uint8, ((255 / plant_number : ℕ) : ℚ)⟩

/-- Modelled from the spec: the serialization collaborator
(`rhizoscan.image.Image`, not under src/) converts a logical value `k`
into a storable pixel intensity by applying the policy's linear scale,
`round(k * ser_scale)`. -/
def serializedIntensity (p : SerPolicy) (k : ℕ) : ℤ :=
  round ((k : ℚ) * p.ser_scale)

/-- The external collaborators called by `segment_image`, as opaque
function parameters.  `gaussian_filter sigma a` models
`scipy.ndimage.gaussian_filter(a, sigma=sigma)`; `label` models the label
array (first component) returned by `scipy.ndimage.label`; `clean_label`
models `rhizoscan.ndarray.measurements.clean_label(labels, min_dim)`. -/
structure Collab where
  gaussian_filter : ℚ → Arr ℚ → Arr ℚ
  remove_background : Arr ℚ → ℕ → ℚ → Arr ℚ
  binary_erosion : Arr Bool → ℕ → Arr Bool
  segment_root : Arr ℚ → Arr Bool
  label : Arr Bool → Arr ℕ
  clean_label : Arr ℕ → ℕ → Arr ℕ

/-- `pmask.astype('f')`: booleans to 0/1 numbers. -/
def toFloatArr (pm : Arr Bool) : Arr ℚ :=
  ⟨pm.rows, pm.cols, fun r c => if pm.data r c then 1 else 0⟩

/-- `img * pmask`: elementwise product of an image with a boolean mask. -/
def maskMul (a : Arr ℚ) (pm : Arr Bool) : Arr ℚ :=
  ⟨a.rows, a.cols, fun r c => a.data r c * (if pm.data r c then 1 else 0)⟩

/-- `img *= ero`: elementwise product with another boolean mask (the eroded
plate mask), shape taken from the image. -/
def maskMulB (a : Arr ℚ) (ero : Arr Bool) : Arr ℚ :=
  ⟨a.rows, a.cols, fun r c => a.data r c * (if ero.data r c then 1 else 0)⟩

/-- The smoothing divisor
`maximum(gaussian_filter(pmask.astype('f'), sigma=smooth), 2**-10)`. -/
def smoothDivisor (g : ℚ → Arr ℚ → Arr ℚ) (sm : ℚ) (pm : Arr Bool) : Arr ℚ :=
  ⟨(g sm (toFloatArr pm)).rows, (g sm (toFloatArr pm)).cols,
   fun r c => max ((g sm (toFloatArr pm)).data r c) ((2 : ℚ) ^ (10 : ℕ))⁻¹⟩

/-- `smooth_img` after the in-place division: the Gaussian blur of
`img*pmask` divided elementwise by the clamped blurred mask. -/
def smoothedCrop (g : ℚ → Arr ℚ → Arr ℚ) (sm : ℚ) (imgC : Arr ℚ) (pm : Arr Bool) : Arr ℚ :=
  ⟨(g sm (maskMul imgC pm)).rows, (g sm (maskMul imgC pm)).cols,
   fun r c => (g sm (maskMul imgC pm)).data r c / (smoothDivisor g sm pm).data r c⟩

/-- The working (cropped) image after the optional smoothing step: when
`smooth` is truthy (nonzero), `img[pmask] = smooth_img[pmask]` overwrites
exactly the pixels inside the cropped plate mask; when `smooth` is 0 the
whole step is skipped. -/
def workingImage (g : ℚ → Arr ℚ → Arr ℚ) (sm : ℚ) (imgC : Arr ℚ) (pm : Arr Bool) : Arr ℚ :=
  if sm = 0 then imgC
  else ⟨imgC.rows, imgC.cols, fun r c =>
    if pm.data r c then (smoothedCrop g sm imgC pm).data r c else imgC.data r c⟩

/-- `rmask[-pmask] = 0`: force the root mask to false outside the plate
mask.  (In the numpy of the source's era, unary minus on a boolean array
is elementwise logical not.) -/
def forceOutside (s : Arr Bool) (pm : Arr Bool) : Arr Bool :=
  ⟨s.rows, s.cols, fun r c => if pm.data r c then s.data r c else false⟩

/-- The root mask just before the cluster-cleaning step: background
removal on the working image, multiplication by the eroded plate mask,
binary segmentation, and forcing to false outside the (uneroded) plate
mask. -/
def segRmask0 (C : Collab) (imgC : Arr ℚ) (pm : Arr Bool) (rmr : ℕ) (sm : ℚ) : Arr Bool :=
  forceOutside
    (C.segment_root
      (maskMulB (C.remove_background (workingImage C.gaussian_filter sm imgC pm) rmr 1)
        (C.binary_erosion pm rmr)))
    pm

/-- The whole cropped-coordinates pipeline of `segment_image`: the mask
before cleaning, then — only when `min_dimension > 0` — connected-component
labeling, cluster cleaning, and `cluster > 0`. -/
def segPipelineCore (C : Collab) (imgC : Arr ℚ) (pm : Arr Bool) (rmr md : ℕ) (sm : ℚ) : Arr Bool :=
  let rm0 := segRmask0 C imgC pm rmr sm
  if 0 < md then
    ⟨(C.clean_label (C.label rm0) md).rows, (C.clean_label (C.label rm0) md).cols,
     fun r c => decide (0 < (C.clean_label (C.label rm0) md).data r c)⟩
  else rm0

/-- The caller's `image` buffer after `segment_image` returns.  Numpy basic
slicing (`image[bbox]`) yields a view, so when smoothing runs, the write
`img[pmask] = smooth_img[pmask]` lands in the caller's buffer at the
pixels inside the bounding box whose cropped plate-mask entry is true;
every other pixel, and every pixel when `smooth = 0`, is untouched. -/
def callerImageAfter (g : ℚ → Arr ℚ → Arr ℚ) (sm : ℚ) (image : Arr ℚ) (b : BBox)
    (pm : Arr Bool) (imgC : Arr ℚ) : Arr ℚ :=
  if sm = 0 then image
  else ⟨image.rows, image.cols, fun r c =>
    if b.containsP (r, c) ∧ pm.data (r - b.r0) (c - b.c0) = true
    then (smoothedCrop g sm imgC pm).data (r - b.r0) (c - b.c0)
    else image.data r c⟩

/-- The outputs of `segment_image`: the root mask with its serialization
policy, the bounding box, and (a modelling addition making the aliasing
observable) the caller's image buffer after the call. -/
structure SegOut where
  rmask : Arr Bool
  policy : SerPolicy
  bbox : BBox
  imageAfter : Arr ℚ

/-- `segment_image(image, pmask, root_max_radius, min_dimension, smooth)`:
binarize the plate mask against its maximum (`ValueError` on a zero-size
`pmask`), take the first bounding box found (`IndexError` if there were
none), crop, optionally smooth in place, remove background, erode-mask,
segment, force false outside the plate mask, optionally clean small
clusters, and attach the serialization policy. -/
def segment_image (C : Collab) (image pmask : Arr ℚ) (rmr md : ℕ) (sm : ℚ) :
    Except PyErr SegOut :=
  match maxCells pmask with
  | none => .error PyErr.valueError
  | some m =>
    match find_objects (binarize pmask m) with
    | [] => .error PyErr.indexError
    | b :: _ =>
      let pm := (binarize pmask m).crop b
      let imgC := image.crop b
      Except.ok ⟨segPipelineCore C imgC pm rmr md sm, segmentImagePolicy, b,
        callerImageAfter C.gaussian_filter sm image b pm imgC⟩

/-- The cropped-coordinates pipeline with the smoothing step textually
absent (for claim C7: a run with smoothing disabled in any other way). -/
def segPipelineCoreNoSmooth (C : Collab) (imgC : Arr ℚ) (pm : Arr Bool) (rmr md : ℕ) : Arr Bool :=
  let rm0 :=
    forceOutside
      (C.segment_root
        (maskMulB (C.remove_background imgC rmr 1) (C.binary_erosion pm rmr)))
      pm
  if 0 < md then
    ⟨(C.clean_label (C.label rm0) md).rows, (C.clean_label (C.label rm0) md).cols,
     fun r c => decide (0 < (C.clean_label (C.label rm0) md).data r c)⟩
  else rm0

/-- `segment_image` with the smoothing step textually absent: the
background-removal collaborator receives the unmodified crop and the
caller's buffer is untouched. -/
def segment_image_nosmooth (C : Collab) (image pmask : Arr ℚ) (rmr md : ℕ) :
    Except PyErr SegOut :=
  match maxCells pmask with
  | none => .error PyErr.valueError
  | some m =>
    match find_objects (binarize pmask m) with
    | [] => .error PyErr.indexError
    | b :: _ =>
      let pm := (binarize pmask m).crop b
      let imgC := image.crop b
      Except.ok ⟨segPipelineCoreNoSmooth C imgC pm rmr md, segmentImagePolicy, b, image⟩

/-- `detect_leaves(rmask, image, bbox, plant_number, root_min_radius,
leaf_height, sort)`: re-crop the original image by the propagated bounding
box, delegate to the seed-detection collaborator `dl`, and attach the
serialization policy with scale `255/plant_number` (Python 2 floor
division). -/
def detect_leaves (dl : Arr Bool → Arr ℚ → ℕ → ℕ → ℚ × ℚ → Bool → Arr ℕ)
    (rmask : Arr Bool) (image : Arr ℚ) (bbox : BBox) (plant_number : ℕ)
    (root_min_radius : ℕ) (leaf_height : ℚ × ℚ) (sort : Bool) : Arr ℕ × SerPolicy :=
  (dl rmask (image.crop bbox) plant_number root_min_radius leaf_height sort,
   detectLeavesPolicy plant_number)

/-- Decidable equality of `Except` results, used by concrete evaluations. -/
instance {ε α : Type} [DecidableEq ε] [DecidableEq α] : DecidableEq (Except ε α)
  | .error e, .error f =>
    if h : e = f then .isTrue (by rw [h]) else .isFalse (by intro hc; cases hc; exact h rfl)
  | .error _, .ok _ => .isFalse (by intro hc; cases hc)
  | .ok _, .error _ => .isFalse (by intro hc; cases hc)
  | .ok a, .ok b =>
    if h : a = b then .isTrue (by rw [h]) else .isFalse (by intro hc; cases hc; exact h rfl)

/-- A concrete smoothing-like stand-in for `gaussian_filter` (averages each
pixel with its right neighbour), used by witnesses and counterexamples. -/
def gTest : ℚ → Arr ℚ → Arr ℚ :=
  fun _ a => ⟨a.rows, a.cols, fun r c => (a.data r c + a.data r (c + 1)) / 2⟩

/-- A concrete stand-in for `remove_background` (identity), used by
witnesses and counterexamples. -/
def rbTest : Arr ℚ → ℕ → ℚ → Arr ℚ := fun a _ _ => a

/-- A concrete stand-in for `binary_erosion` (identity), used by witnesses
and counterexamples. -/
def eroTest : Arr Bool → ℕ → Arr Bool := fun m _ => m

/-- A concrete stand-in for `segment_root_image` (threshold at 0), used by
witnesses and counterexamples. -/
def srTest : Arr ℚ → Arr Bool :=
  fun a => ⟨a.rows, a.cols, fun r c => decide (0 < a.data r c)⟩

/-- A concrete stand-in for `scipy.ndimage.label` (one label for all true
pixels; background 0), used by witnesses and counterexamples. -/
def labelTest : Arr Bool → Arr ℕ :=
  fun m => ⟨m.rows, m.cols, fun r c => if m.data r c then 1 else 0⟩

/-- A concrete stand-in for `clean_label` (identity relabelling), used by
witnesses and counterexamples. -/
def cleanTest : Arr ℕ → ℕ → Arr ℕ := fun a _ => a

/-- The bundle of concrete collaborator stand-ins. -/
def CTest : Collab := ⟨gTest, rbTest, eroTest, srTest, labelTest, cleanTest⟩

/-- A concrete 1-row 2-column image with pixel values 0 and 1. -/
def imageT : Arr ℚ := ⟨1, 2, fun _ c => if c = 0 then 0 else 1⟩

/-- A concrete 1-row 2-column plate mask that is 1 everywhere. -/
def pmaskT : Arr ℚ := ⟨1, 2, fun _ _ => 1⟩

/-- A concrete zero-size plate mask (numpy allows 0-size arrays). -/
def pmaskEmpty : Arr ℚ := ⟨0, 0, fun _ _ => 0⟩

/-- A concrete 1-row 2-column plate mask whose plate region is the single
pixel (0,0). -/
def pmaskHalf : Arr ℚ := ⟨1, 2, fun _ c => if c = 0 then 1 else 0⟩

/-- A concrete all-zero 2-row 3-column plate mask (an all-false boolean
mask embeds as all-zero). -/
def pmaskZero : Arr ℚ := ⟨2, 3, fun _ _ => 0⟩

/-- 4-adjacency of grid positions. -/
def Adjacent (p q : ℕ × ℕ) : Prop :=
  (p.1 = q.1 ∧ (p.2 + 1 = q.2 ∨ q.2 + 1 = p.2)) ∨
  (p.2 = q.2 ∧ (p.1 + 1 = q.1 ∨ q.1 + 1 = p.1))

/-- An in-bounds true pixel of a boolean mask. -/
def TruePix (m : Arr Bool) (p : ℕ × ℕ) : Prop :=
  p.1 < m.rows ∧ p.2 < m.cols ∧ m.data p.1 p.2 = true

instance (m : Arr Bool) (p : ℕ × ℕ) : Decidable (TruePix m p) := by
  unfold TruePix; infer_instance

/-- Two pixels joined by a 4-connected path of true pixels. -/
def ConnectedIn (m : Arr Bool) (p q : ℕ × ℕ) : Prop :=
  ∃ l : List (ℕ × ℕ), l.head? = some p ∧ l.getLast? = some q ∧
    l.Chain' Adjacent ∧ ∀ x ∈ l, TruePix m x

/-- The true pixels of the mask form one nonempty 4-connected region. -/
def SingleRegion (m : Arr Bool) : Prop :=
  (∃ p, TruePix m p) ∧ ∀ p q, TruePix m p → TruePix m q → ConnectedIn m p q

/-- A bounding box encloses every in-bounds true pixel of a mask. -/
def Encloses (b : BBox) (m : Arr Bool) : Prop :=
  ∀ r c, r < m.rows → c < m.cols → m.data r c = true → b.containsP (r, c)

/-- `b` is the minimal axis-aligned rectangle enclosing the true pixels of
`m`: it encloses them, and it is contained in every enclosing rectangle. -/
def MinimalEnclosing (b : BBox) (m : Arr Bool) : Prop :=
  Encloses b m ∧
  ∀ b2 : BBox, Encloses b2 m →
    b2.r0 ≤ b.r0 ∧ b.r1 ≤ b2.r1 ∧ b2.c0 ≤ b.c0 ∧ b.c1 ≤ b2.c1

/-- Cropping `m` by `b` leaves at least one true pixel in every border row
and border column of the cropped sub-array. -/
def BorderTouch (b : BBox) (m : Arr Bool) : Prop :=
  (∃ c, c < (m.crop b).cols ∧ (m.crop b).data 0 c = true) ∧
  (∃ c, c < (m.crop b).cols ∧ (m.crop b).data ((m.crop b).rows - 1) c = true) ∧
  (∃ r, r < (m.crop b).rows ∧ (m.crop b).data r 0 = true) ∧
  (∃ r, r < (m.crop b).rows ∧ (m.crop b).data r ((m.crop b).cols - 1) = true)

/-! Helper lemmas about the embedding. -/

lemma foldl_max_mem (l : List ℚ) (v : ℚ) : l.foldl max v = v ∨ l.foldl max v ∈ l := by
  induction l generalizing v with
  | nil => exact Or.inl rfl
  | cons a l ih =>
    rcases ih (max v a) with h | h
    · rcases max_choice v a with hva | hva
      · exact Or.inl (by rw [List.foldl_cons, h, hva])
      · exact Or.inr (by rw [List.foldl_cons, h, hva]; exact List.mem_cons_self a l)
    · exact Or.inr (List.mem_cons_of_mem a h)

lemma listMax_mem {l : List ℚ} {m : ℚ} (h : listMax l = some m) : m ∈ l := by
  cases l with
  | nil => simp [listMax] at h
  | cons v vs =>
    simp only [listMax, Option.some.injEq] at h
    rcases foldl_max_mem vs v with h2 | h2
    · rw [← h, h2]; exact List.mem_cons_self v vs
    · rw [← h]; exact List.mem_cons_of_mem v h2

lemma mem_cells {a : Arr ℚ} {x : ℚ} :
    x ∈ a.cells ↔ ∃ r, r < a.rows ∧ ∃ c, c < a.cols ∧ a.data r c = x := by
  simp [Arr.cells, List.mem_flatMap, List.mem_map, List.mem_range]

lemma maxCells_attained {a : Arr ℚ} {m : ℚ} (h : maxCells a = some m) :
    ∃ r, r < a.rows ∧ ∃ c, c < a.cols ∧ a.data r c = m :=
  mem_cells.mp (listMax_mem h)

lemma mem_trueSet {m : Arr Bool} {p : ℕ × ℕ} :
    p ∈ trueSet m ↔ p.1 < m.rows ∧ p.2 < m.cols ∧ m.data p.1 p.2 = true := by
  simp [trueSet, Finset.mem_filter, Finset.mem_product, Finset.mem_range, and_assoc]

lemma binarize_true_of_attained {a : Arr ℚ} {m : ℚ} {r c : ℕ}
    (h : a.data r c = m) : (binarize a m).data r c = true := by
  simp [binarize, h]

lemma trueSet_binarize_nonempty {a : Arr ℚ} {m : ℚ} (h : maxCells a = some m) :
    (trueSet (binarize a m)).Nonempty := by
  obtain ⟨r, hr, c, hc, hd⟩ := maxCells_attained h
  exact ⟨(r, c), mem_trueSet.mpr ⟨hr, hc, binarize_true_of_attained hd⟩⟩

lemma find_objects_pos {m : Arr Bool} (h : (trueSet m).Nonempty) :
    find_objects m = [boxOf m h] := by
  rw [find_objects, dif_pos h]

lemma segment_image_eq (C : Collab) (image pmask : Arr ℚ) (rmr md : ℕ) (sm : ℚ) (m : ℚ)
    (hm : maxCells pmask = some m) (h : (trueSet (binarize pmask m)).Nonempty) :
    segment_image C image pmask rmr md sm =
      Except.ok ⟨segPipelineCore C (image.crop (boxOf (binarize pmask m) h))
          ((binarize pmask m).crop (boxOf (binarize pmask m) h)) rmr md sm,
        segmentImagePolicy, boxOf (binarize pmask m) h,
        callerImageAfter C.gaussian_filter sm image (boxOf (binarize pmask m) h)
          ((binarize pmask m).crop (boxOf (binarize pmask m) h))
          (image.crop (boxOf (binarize pmask m) h))⟩ := by
  simp only [segment_image, hm, find_objects_pos h]

lemma boxOf_encloses {m : Arr Bool} (h : (trueSet m).Nonempty) :
    ∀ p ∈ trueSet m, (boxOf m h).containsP p := by
  intro p hp
  refine ⟨Finset.min'_le _ _ (Finset.mem_image_of_mem Prod.fst hp),
    Nat.lt_succ_of_le (Finset.le_max' _ _ (Finset.mem_image_of_mem Prod.fst hp)),
    Finset.min'_le _ _ (Finset.mem_image_of_mem Prod.snd hp),
    Nat.lt_succ_of_le (Finset.le_max' _ _ (Finset.mem_image_of_mem Prod.snd hp))⟩

lemma boxOf_r0_attained {m : Arr Bool} (h : (trueSet m).Nonempty) :
    ∃ p ∈ trueSet m, p.1 = (boxOf m h).r0 := by
  have hmem := Finset.min'_mem ((trueSet m).image Prod.fst) (h.image Prod.fst)
  obtain ⟨p, hp, he⟩ := Finset.mem_image.mp hmem
  exact ⟨p, hp, he⟩

lemma boxOf_r1_attained {m : Arr Bool} (h : (trueSet m).Nonempty) :
    ∃ p ∈ trueSet m, p.1 + 1 = (boxOf m h).r1 := by
  have hmem := Finset.max'_mem ((trueSet m).image Prod.fst) (h.image Prod.fst)
  obtain ⟨p, hp, he⟩ := Finset.mem_image.mp hmem
  exact ⟨p, hp, by rw [boxOf, he]⟩

lemma boxOf_c0_attained {m : Arr Bool} (h : (trueSet m).Nonempty) :
    ∃ p ∈ trueSet m, p.2 = (boxOf m h).c0 := by
  have hmem := Finset.min'_mem ((trueSet m).image Prod.snd) (h.image Prod.snd)
  obtain ⟨p, hp, he⟩ := Finset.mem_image.mp hmem
  exact ⟨p, hp, he⟩

lemma boxOf_c1_attained {m : Arr Bool} (h : (trueSet m).Nonempty) :
    ∃ p ∈ trueSet m, p.2 + 1 = (boxOf m h).c1 := by
  have hmem := Finset.max'_mem ((trueSet m).image Prod.snd) (h.image Prod.snd)
  obtain ⟨p, hp, he⟩ := Finset.mem_image.mp hmem
  exact ⟨p, hp, by rw [boxOf, he]⟩

lemma workingImage_zero (g : ℚ → Arr ℚ → Arr ℚ) (imgC : Arr ℚ) (pm : Arr Bool) :
    workingImage g 0 imgC pm = imgC := by
  simp [workingImage]

lemma callerImageAfter_zero (g : ℚ → Arr ℚ → Arr ℚ) (image : Arr ℚ) (b : BBox)
    (pm : Arr Bool) (imgC : Arr ℚ) : callerImageAfter g 0 image b pm imgC = image := by
  simp [callerImageAfter]

lemma segPipelineCore_zero_smooth (C : Collab) (imgC : Arr ℚ) (pm : Arr Bool) (rmr md : ℕ) :
    segPipelineCore C imgC pm rmr md 0 = segPipelineCoreNoSmooth C imgC pm rmr md := by
  simp only [segPipelineCore, segPipelineCoreNoSmooth, segRmask0, workingImage_zero]

/-- C6: when smoothing is enabled (smooth ≠ 0), the divisor normalizing the
blurred masked image is the blurred plate mask floor-clamped to at least
2⁻¹⁰, hence strictly positive; only pixels inside the cropped plate mask
are overwritten with the normalized smoothed value, and pixels outside the
mask keep their original cropped value. -/
theorem c6_smooth_divisor_clamped_and_masked_overwrite :
    ∀ (g : ℚ → Arr ℚ → Arr ℚ) (sm : ℚ) (imgC : Arr ℚ) (pm : Arr Bool), sm ≠ 0 →
    (∀ r c, ((2 : ℚ) ^ (10 : ℕ))⁻¹ ≤ (smoothDivisor g sm pm).data r c ∧
      0 < (smoothDivisor g sm pm).data r c) ∧
    (∀ r c, pm.data r c = true →
      (workingImage g sm imgC pm).data r c =
        (g sm (maskMul imgC pm)).data r c / (smoothDivisor g sm pm).data r c) ∧
    (∀ r c, pm.data r c = false →
      (workingImage g sm imgC pm).data r c = imgC.data r c) := by
  intro g sm imgC pm hsm
  refine ⟨fun r c => ?_, fun r c hpm => ?_, fun r c hpm => ?_⟩
  · refine ⟨le_max_right _ _, lt_of_lt_of_le (by norm_num) (le_max_right _ _)⟩
  · simp [workingImage, hsm, hpm, smoothedCrop]
  · simp [workingImage, hsm, hpm]

/-- Witness for C6 at a concrete smoother, image and mask. -/
theorem c6_smooth_divisor_clamped_and_masked_overwrite_witness :
    (∀ r c, ((2 : ℚ) ^ (10 : ℕ))⁻¹ ≤ (smoothDivisor gTest 1 (binarize pmaskT 1)).data r c ∧
      0 < (smoothDivisor gTest 1 (binarize pmaskT 1)).data r c) ∧
    (∀ r c, (binarize pmaskT 1).data r c = true →
      (workingImage gTest 1 imageT (binarize pmaskT 1)).data r c =
        (gTest 1 (maskMul imageT (binarize pmaskT 1))).data r c /
          (smoothDivisor gTest 1 (binarize pmaskT 1)).data r c) ∧
    (∀ r c, (binarize pmaskT 1).data r c = false →
      (workingImage gTest 1 imageT (binarize pmaskT 1)).data r c = imageT.data r c) :=
  c6_smooth_divisor_clamped_and_masked_overwrite gTest 1 imageT (binarize pmaskT 1) (by norm_num)

/-- C7: with smooth = 0 the smoothing step is skipped entirely: the run
coincides with a run of the pipeline whose smoothing step is textually
absent, and the image handed to the background-removal collaborator is
exactly the unmodified bounding-box crop. -/
theorem c7_smooth_zero_skips_smoothing :
    (∀ (C : Collab) (image pmask : Arr ℚ) (rmr md : ℕ),
      segment_image C image pmask rmr md 0 = segment_image_nosmooth C image pmask rmr md) ∧
    (∀ (g : ℚ → Arr ℚ → Arr ℚ) (imgC : Arr ℚ) (pm : Arr Bool),
      workingImage g 0 imgC pm = imgC) := by
  constructor
  · intro C image pmask rmr md
    cases hm : maxCells pmask with
    | none => simp only [segment_image, segment_image_nosmooth, hm]
    | some m =>
      simp only [segment_image, segment_image_nosmooth, hm]
      cases hf : find_objects (binarize pmask m) with
      | nil => rfl
      | cons b t => simp [segPipelineCore_zero_smooth, callerImageAfter_zero]
  · exact workingImage_zero

/-- C8: with min_dimension = 0 no component filtering occurs: the pipeline
returns the pre-cleaning mask unchanged, and for a successful call the
returned root mask equals the mask produced before the cleaning step. -/
theorem c8_min_dimension_zero_skips_cleaning :
    (∀ (C : Collab) (imgC : Arr ℚ) (pm : Arr Bool) (rmr : ℕ) (sm : ℚ),
      segPipelineCore C imgC pm rmr 0 sm = segRmask0 C imgC pm rmr sm) ∧
    (∀ (C : Collab) (image pmask : Arr ℚ) (rmr : ℕ) (sm : ℚ) (m : ℚ),
      maxCells pmask = some m →
      ∃ out : SegOut, segment_image C image pmask rmr 0 sm = Except.ok out ∧
        out.rmask = segRmask0 C (image.crop out.bbox)
          ((binarize pmask m).crop out.bbox) rmr sm) := by
  constructor
  · intro C imgC pm rmr sm
    simp [segPipelineCore]
  · intro C image pmask rmr sm m hm
    have h := trueSet_binarize_nonempty hm
    refine ⟨_, segment_image_eq C image pmask rmr 0 sm m hm h, ?_⟩
    simp [segPipelineCore]

/-- Witness for C8 at concrete collaborators and inputs. -/
theorem c8_min_dimension_zero_skips_cleaning_witness :
    (segPipelineCore CTest imageT (binarize pmaskT 1) 15 0 1 =
      segRmask0 CTest imageT (binarize pmaskT 1) 15 1) ∧
    (∃ out : SegOut, segment_image CTest imageT pmaskT 15 0 1 = Except.ok out ∧
      out.rmask = segRmask0 CTest (imageT.crop out.bbox)
        ((binarize pmaskT 1).crop out.bbox) 15 1) :=
  ⟨c8_min_dimension_zero_skips_cleaning.1 CTest imageT (binarize pmaskT 1) 15 1,
   c8_min_dimension_zero_skips_cleaning.2 CTest imageT pmaskT 15 1 1 (by decide)⟩

/-- C3 counterexample: with plant_number = 2 the attached scale is the
Python 2 floor division 255/2 = 127, so seed label 2 serializes to 254,
while round(2 × 255 / 2) = 255. -/
theorem c3_serialization_scale_cex :
    serializedIntensity (detectLeavesPolicy 2) 2 = 254 ∧
    round ((2 : ℚ) * 255 / 2) = 255 ∧ (254 : ℤ) ≠ 255 := by
  refine ⟨?_, by norm_num, by norm_num⟩
  norm_num [serializedIntensity, detectLeavesPolicy]

/-- C3 amended: the policy detect_leaves attaches carries scale
⌊255/plant_number⌋ (Python 2 integer division), so seed label k stores as
k·⌊255/plant_number⌋ — equal to round(k·255/plant_number) only when
plant_number divides 255; segment_image's policy stores true as 255 and
false as 0, and both policies declare 8-bit unsigned storage. -/
theorem c3_serialization_scale_amended :
    ∀ (dl : Arr Bool → Arr ℚ → ℕ → ℕ → ℚ × ℚ → Bool → Arr ℕ) (rm : Arr Bool)
      (image : Arr ℚ) (bb : BBox) (pn rrad : ℕ) (lh : ℚ × ℚ) (so : Bool), 0 < pn →
    (detect_leaves dl rm image bb pn rrad lh so).2 = detectLeavesPolicy pn ∧
    (detect_leaves dl rm image bb pn rrad lh so).2.ser_dtype = SerDtype.uint8 ∧
    (∀ k : ℕ, serializedIntensity (detect_leaves dl rm image bb pn rrad lh so).2 k =
      ((k * (255 / pn) : ℕ) : ℤ)) ∧
    serializedIntensity segmentImagePolicy 1 = 255 ∧
    serializedIntensity segmentImagePolicy 0 = 0 ∧
    segmentImagePolicy.ser_dtype = SerDtype.uint8 := by
  intro dl rm image bb pn rrad lh so _
  refine ⟨rfl, rfl, fun k => ?_, ?_, ?_, rfl⟩
  · show round ((k : ℚ) * ((255 / pn : ℕ) : ℚ)) = ((k * (255 / pn) : ℕ) : ℤ)
    rw [show ((k : ℚ) * ((255 / pn : ℕ) : ℚ)) = (((k * (255 / pn) : ℕ) : ℚ)) by
      push_cast; ring, round_natCast]
  · norm_num [serializedIntensity, segmentImagePolicy]
  · norm_num [serializedIntensity, segmentImagePolicy]

/-- Witness for C3's amended statement at plant_number = 2. -/
theorem c3_serialization_scale_amended_witness :
    (detect_leaves (fun _ _ _ _ _ _ => ⟨1, 1, fun _ _ => 0⟩) (binarize pmaskT 1) imageT
        ⟨0, 1, 0, 2⟩ 2 3 (0, 1/5) true).2 = detectLeavesPolicy 2 ∧
    (detect_leaves (fun _ _ _ _ _ _ => ⟨1, 1, fun _ _ => 0⟩) (binarize pmaskT 1) imageT
        ⟨0, 1, 0, 2⟩ 2 3 (0, 1/5) true).2.ser_dtype = SerDtype.uint8 ∧
    (∀ k : ℕ, serializedIntensity (detect_leaves (fun _ _ _ _ _ _ => ⟨1, 1, fun _ _ => 0⟩)
        (binarize pmaskT 1) imageT ⟨0, 1, 0, 2⟩ 2 3 (0, 1/5) true).2 k =
      ((k * (255 / 2) : ℕ) : ℤ)) ∧
    serializedIntensity segmentImagePolicy 1 = 255 ∧
    serializedIntensity segmentImagePolicy 0 = 0 ∧
    segmentImagePolicy.ser_dtype = SerDtype.uint8 :=
  c3_serialization_scale_amended (fun _ _ _ _ _ _ => ⟨1, 1, fun _ _ => 0⟩)
    (binarize pmaskT 1) imageT ⟨0, 1, 0, 2⟩ 2 3 (0, 1/5) true (by norm_num)

/-- C2 counterexample: a zero-size pmask binarizes to a mask with no true
pixel, and there segment_image fails with a ValueError (from the max
reduction), not a ShapeError. -/
theorem c2_shape_error_cex :
    (∀ (m : ℚ) (r c : ℕ), r < pmaskEmpty.rows → c < pmaskEmpty.cols →
      (binarize pmaskEmpty m).data r c = false) ∧
    segment_image CTest imageT pmaskEmpty 15 50 1 = Except.error PyErr.valueError ∧
    PyErr.valueError ≠ PyErr.shapeError := by
  refine ⟨?_, ?_, by decide⟩
  · intro m r c hr _
    exact absurd hr (by simp [pmaskEmpty])
  · simp [segment_image, maxCells, Arr.cells, pmaskEmpty, listMax]

/-- C2 amended: segment_image never raises a ShapeError; for every pmask
whose binarization exists (every nonzero-size pmask, whose binarization
then necessarily contains a true pixel) the bounding-box step succeeds and
the call returns normally. -/
theorem c2_no_shape_error_amended :
    ∀ (C : Collab) (image pmask : Arr ℚ) (rmr md : ℕ) (sm : ℚ),
      segment_image C image pmask rmr md sm ≠ Except.error PyErr.shapeError ∧
      (∀ m : ℚ, maxCells pmask = some m →
        ∃ out : SegOut, segment_image C image pmask rmr md sm = Except.ok out) := by
  intro C image pmask rmr md sm
  constructor
  · cases hm : maxCells pmask with
    | none => simp [segment_image, hm]
    | some m =>
      rw [segment_image_eq C image pmask rmr md sm m hm (trueSet_binarize_nonempty hm)]
      simp
  · intro m hm
    exact ⟨_, segment_image_eq C image pmask rmr md sm m hm (trueSet_binarize_nonempty hm)⟩

/-- Witness for C2's amended statement at a concrete nonempty pmask. -/
theorem c2_no_shape_error_amended_witness :
    ∃ out : SegOut, segment_image CTest imageT pmaskT 15 50 1 = Except.ok out :=
  (c2_no_shape_error_amended CTest imageT pmaskT 15 50 1).2 1 (by decide)

lemma find_objects_full {m : Arr Bool} (hr : 0 < m.rows) (hc : 0 < m.cols)
    (hall : ∀ r c, r < m.rows → c < m.cols → m.data r c = true) :
    find_objects m = [⟨0, m.rows, 0, m.cols⟩] := by
  have h00 : ((0, 0) : ℕ × ℕ) ∈ trueSet m := mem_trueSet.mpr ⟨hr, hc, hall 0 0 hr hc⟩
  have h : (trueSet m).Nonempty := ⟨(0, 0), h00⟩
  have hrm : ((m.rows - 1, 0) : ℕ × ℕ) ∈ trueSet m :=
    mem_trueSet.mpr ⟨by omega, hc, hall _ _ (by omega) hc⟩
  have hcm : ((0, m.cols - 1) : ℕ × ℕ) ∈ trueSet m :=
    mem_trueSet.mpr ⟨hr, by omega, hall _ _ hr (by omega)⟩
  rw [find_objects_pos h]
  have e1 : ((trueSet m).image Prod.fst).min' (h.image Prod.fst) = 0 :=
    Nat.le_zero.mp (Finset.min'_le _ _ (Finset.mem_image_of_mem Prod.fst h00))
  have e2 : ((trueSet m).image Prod.fst).max' (h.image Prod.fst) = m.rows - 1 := by
    apply le_antisymm
    · apply Finset.max'_le
      intro y hy
      obtain ⟨p, hp, he⟩ := Finset.mem_image.mp hy
      have := (mem_trueSet.mp hp).1
      omega
    · exact Finset.le_max' _ _ (Finset.mem_image_of_mem Prod.fst hrm)
  have e3 : ((trueSet m).image Prod.snd).min' (h.image Prod.snd) = 0 :=
    Nat.le_zero.mp (Finset.min'_le _ _ (Finset.mem_image_of_mem Prod.snd h00))
  have e4 : ((trueSet m).image Prod.snd).max' (h.image Prod.snd) = m.cols - 1 := by
    apply le_antisymm
    · apply Finset.max'_le
      intro y hy
      obtain ⟨p, hp, he⟩ := Finset.mem_image.mp hy
      have := (mem_trueSet.mp hp).2.1
      omega
    · exact Finset.le_max' _ _ (Finset.mem_image_of_mem Prod.snd hcm)
  rw [boxOf, e1, e2, e3, e4]
  simp only [List.cons.injEq, and_true, BBox.mk.injEq]
  exact ⟨trivial, by omega, trivial, by omega⟩

/-- C10: the binarized mask of every nonzero-size pmask contains a pixel
attaining the maximum, so the bounding-box step always finds an object and
the no-true-pixels failure path is unreachable; an all-zero pmask
binarizes to an all-true mask whose bounding box is the whole array. -/
theorem c10_binarized_mask_never_empty :
    ∀ pmask : Arr ℚ, 0 < pmask.rows → 0 < pmask.cols →
    ∃ m : ℚ, maxCells pmask = some m ∧
      (∃ r c, r < pmask.rows ∧ c < pmask.cols ∧ (binarize pmask m).data r c = true) ∧
      find_objects (binarize pmask m) ≠ [] ∧
      ((∀ r c, pmask.data r c = 0) →
        find_objects (binarize pmask m) = [⟨0, pmask.rows, 0, pmask.cols⟩]) := by
  intro pmask hr hc
  have hx : pmask.data 0 0 ∈ pmask.cells := mem_cells.mpr ⟨0, hr, 0, hc, rfl⟩
  have hm : ∃ m : ℚ, maxCells pmask = some m := by
    cases hcl : pmask.cells with
    | nil => rw [hcl] at hx; cases hx
    | cons v vs => exact ⟨vs.foldl max v, by rw [maxCells, hcl]; rfl⟩
  obtain ⟨m, hm⟩ := hm
  refine ⟨m, hm, ?_, ?_, ?_⟩
  · obtain ⟨r, hr2, c, hc2, hd⟩ := maxCells_attained hm
    exact ⟨r, c, hr2, hc2, binarize_true_of_attained hd⟩
  · rw [find_objects_pos (trueSet_binarize_nonempty hm)]
    simp
  · intro hall
    have hm0 : m = 0 := by
      obtain ⟨r, _, c, _, hd⟩ := mem_cells.mp (listMax_mem hm)
      rw [← hd, hall r c]
    subst hm0
    have hbt : ∀ r c, r < (binarize pmask 0).rows → c < (binarize pmask 0).cols →
        (binarize pmask 0).data r c = true := by
      intro r c _ _
      simp [binarize, hall r c]
    exact find_objects_full hr hc hbt

/-- Witness for C10 at a concrete all-zero 2-by-3 pmask. -/
theorem c10_binarized_mask_never_empty_witness :
    ∃ m : ℚ, maxCells pmaskZero = some m ∧
      (∃ r c, r < pmaskZero.rows ∧ c < pmaskZero.cols ∧
        (binarize pmaskZero m).data r c = true) ∧
      find_objects (binarize pmaskZero m) ≠ [] ∧
      ((∀ r c, pmaskZero.data r c = 0) →
        find_objects (binarize pmaskZero m) = [⟨0, pmaskZero.rows, 0, pmaskZero.cols⟩]) :=
  c10_binarized_mask_never_empty pmaskZero (by decide) (by decide)

/-- C1 counterexample: with a smoothing-like collaborator, a 1-by-2 image
(0, 1) and an all-plate pmask, `segment_image` with smooth = 1 leaves the
caller's buffer holding 1/2 at pixel (0,0), where it held 0 before the
call: the bounding-box crop is a numpy view and the smoothing write goes
through it. -/
theorem c1_caller_image_mutated_cex :
    (segment_image CTest imageT pmaskT 15 50 1).map (fun o => o.imageAfter.data 0 0) =
      Except.ok (1 / 2) ∧
    imageT.data 0 0 = 0 ∧ ((1 : ℚ) / 2) ≠ 0 := by
  have h1 : maxCells pmaskT = some 1 := by decide
  have h2 : find_objects (binarize pmaskT 1) = [⟨0, 1, 0, 2⟩] := by decide
  refine ⟨?_, by simp [imageT], by norm_num⟩
  simp only [segment_image, h1, h2, Except.map]
  simp only [callerImageAfter, smoothedCrop, smoothDivisor, maskMul, toFloatArr, Arr.crop,
    binarize, CTest, gTest, imageT, pmaskT]
  norm_num [BBox.containsP]

/-- C1 amended: the smoothing write of step 4 goes through the numpy view
created by bounding-box indexing, so with smooth ≠ 0 segment_image can
mutate the caller's image inside the bounding box where the cropped plate
mask is true; with smooth = 0, and at every pixel outside the bounding box
or outside the plate mask, the caller's image is unchanged. -/
theorem c1_mutation_confined_amended :
    ∀ (C : Collab) (image pmask : Arr ℚ) (rmr md : ℕ) (sm : ℚ) (m : ℚ),
      maxCells pmask = some m →
      ∃ out : SegOut, segment_image C image pmask rmr md sm = Except.ok out ∧
        (sm = 0 → out.imageAfter = image) ∧
        (∀ r c, ¬(out.bbox.containsP (r, c) ∧
            ((binarize pmask m).crop out.bbox).data (r - out.bbox.r0) (c - out.bbox.c0) = true) →
          out.imageAfter.data r c = image.data r c) := by
  intro C image pmask rmr md sm m hm
  have h := trueSet_binarize_nonempty hm
  refine ⟨_, segment_image_eq C image pmask rmr md sm m hm h, ?_, ?_⟩
  · intro h0
    simp [callerImageAfter, h0]
  · intro r c hn
    dsimp only at hn ⊢
    unfold callerImageAfter
    by_cases h0 : sm = 0
    · rw [if_pos h0]
    · rw [if_neg h0]
      exact if_neg hn

/-- Witness for C1's amended statement at concrete collaborators and
inputs. -/
theorem c1_mutation_confined_amended_witness :
    ∃ out : SegOut, segment_image CTest imageT pmaskT 15 50 1 = Except.ok out ∧
      ((1 : ℚ) = 0 → out.imageAfter = imageT) ∧
      (∀ r c, ¬(out.bbox.containsP (r, c) ∧
          ((binarize pmaskT 1).crop out.bbox).data (r - out.bbox.r0) (c - out.bbox.c0) = true) →
        out.imageAfter.data r c = imageT.data r c) :=
  c1_mutation_confined_amended CTest imageT pmaskT 15 50 1 1 (by decide)

/-- C4: for every input and every labeling/cleaning collaborator that maps
background (false / label 0) pixels to label 0, every pixel of the
returned root mask lying outside the binarized uneroded plate mask (in
cropped coordinates) is false, whether or not the cleaning branch runs. -/
theorem c4_outside_plate_mask_false :
    ∀ (C : Collab) (image pmask : Arr ℚ) (rmr md : ℕ) (sm : ℚ) (m : ℚ),
      maxCells pmask = some m →
      (∀ (a : Arr Bool) (r c : ℕ), a.data r c = false → (C.label a).data r c = 0) →
      (∀ (a : Arr ℕ) (d r c : ℕ), a.data r c = 0 → (C.clean_label a d).data r c = 0) →
      ∃ out : SegOut, segment_image C image pmask rmr md sm = Except.ok out ∧
        ∀ r c, ((binarize pmask m).crop out.bbox).data r c = false →
          out.rmask.data r c = false := by
  intro C image pmask rmr md sm m hm hlabel hclean
  have h := trueSet_binarize_nonempty hm
  refine ⟨_, segment_image_eq C image pmask rmr md sm m hm h, ?_⟩
  intro r c hpm
  dsimp only at hpm ⊢
  have hrm0 : (segRmask0 C (image.crop (boxOf (binarize pmask m) h))
      ((binarize pmask m).crop (boxOf (binarize pmask m) h)) rmr sm).data r c = false := by
    simp [segRmask0, forceOutside, hpm]
  unfold segPipelineCore
  by_cases hmd : 0 < md
  · rw [if_pos hmd]
    dsimp only
    rw [hclean _ _ _ _ (hlabel _ _ _ hrm0)]
    simp
  · rw [if_neg hmd]
    exact hrm0

/-- Witness for C4 at concrete collaborators (whose labeler and cleaner do
map background to 0) and a pmask whose plate region is one pixel. -/
theorem c4_outside_plate_mask_false_witness :
    ∃ out : SegOut, segment_image CTest imageT pmaskHalf 15 50 1 = Except.ok out ∧
      ∀ r c, ((binarize pmaskHalf 1).crop out.bbox).data r c = false →
        out.rmask.data r c = false :=
  c4_outside_plate_mask_false CTest imageT pmaskHalf 15 50 1 1 (by decide)
    (fun a r c hf => by simp [CTest, labelTest, hf])
    (fun a d r c h0 => by simpa [CTest, cleanTest] using h0)

lemma workingImage_shape (g : ℚ → Arr ℚ → Arr ℚ) (sm : ℚ) (imgC : Arr ℚ) (pm : Arr Bool) :
    (workingImage g sm imgC pm).shape = imgC.shape := by
  unfold workingImage
  split <;> rfl

lemma forceOutside_shape (s pm : Arr Bool) : (forceOutside s pm).shape = s.shape := rfl

lemma maskMulB_shape (a : Arr ℚ) (e : Arr Bool) : (maskMulB a e).shape = a.shape := rfl

lemma segRmask0_shape (C : Collab) (imgC : Arr ℚ) (pm : Arr Bool) (rmr : ℕ) (sm : ℚ)
    (hrb : ∀ a d s, (C.remove_background a d s).shape = a.shape)
    (hsr : ∀ a, (C.segment_root a).shape = a.shape) :
    (segRmask0 C imgC pm rmr sm).shape = imgC.shape := by
  rw [segRmask0, forceOutside_shape, hsr, maskMulB_shape, hrb, workingImage_shape]

lemma segPipelineCore_shape (C : Collab) (imgC : Arr ℚ) (pm : Arr Bool) (rmr md : ℕ) (sm : ℚ)
    (hrb : ∀ a d s, (C.remove_background a d s).shape = a.shape)
    (hsr : ∀ a, (C.segment_root a).shape = a.shape)
    (hla : ∀ a, (C.label a).shape = a.shape)
    (hcl : ∀ a d, (C.clean_label a d).shape = a.shape) :
    (segPipelineCore C imgC pm rmr md sm).shape = imgC.shape := by
  unfold segPipelineCore
  by_cases hmd : 0 < md
  · rw [if_pos hmd]
    show (C.clean_label (C.label (segRmask0 C imgC pm rmr sm)) md).shape = imgC.shape
    rw [hcl, hla, segRmask0_shape C imgC pm rmr sm hrb hsr]
  · rw [if_neg hmd]
    exact segRmask0_shape C imgC pm rmr sm hrb hsr

/-- C9: whenever segment_image returns and the external collaborators are
shape-preserving, the returned root mask has exactly the shape of the
plate mask cropped to the returned bounding box. -/
theorem c9_rmask_shape_matches_cropped_pmask :
    ∀ (C : Collab) (image pmask : Arr ℚ) (rmr md : ℕ) (sm : ℚ) (m : ℚ),
      maxCells pmask = some m →
      (∀ a d s, (C.remove_background a d s).shape = a.shape) →
      (∀ a, (C.segment_root a).shape = a.shape) →
      (∀ a, (C.label a).shape = a.shape) →
      (∀ a d, (C.clean_label a d).shape = a.shape) →
      ∃ out : SegOut, segment_image C image pmask rmr md sm = Except.ok out ∧
        out.rmask.shape = ((binarize pmask m).crop out.bbox).shape := by
  intro C image pmask rmr md sm m hm hrb hsr hla hcl
  have h := trueSet_binarize_nonempty hm
  refine ⟨_, segment_image_eq C image pmask rmr md sm m hm h, ?_⟩
  dsimp only
  rw [segPipelineCore_shape _ _ _ _ _ _ hrb hsr hla hcl]
  rfl

/-- Witness for C9 at the concrete (shape-preserving) collaborators. -/
theorem c9_rmask_shape_matches_cropped_pmask_witness :
    ∃ out : SegOut, segment_image CTest imageT pmaskT 15 50 1 = Except.ok out ∧
      out.rmask.shape = ((binarize pmaskT 1).crop out.bbox).shape :=
  c9_rmask_shape_matches_cropped_pmask CTest imageT pmaskT 15 50 1 1 (by decide)
    (fun _ _ _ => rfl) (fun _ => rfl) (fun _ => rfl) (fun _ _ => rfl)

/-- C5: for every pmask whose binarization is a single connected
true-region, the bbox returned by segment_image is the minimal axis-aligned
rectangle enclosing the true pixels, and cropping the binarized mask by it
leaves a true pixel in every border row and column. -/
theorem c5_bbox_minimal_enclosing :
    ∀ (C : Collab) (image pmask : Arr ℚ) (rmr md : ℕ) (sm : ℚ) (m : ℚ),
      maxCells pmask = some m → SingleRegion (binarize pmask m) →
      ∃ out : SegOut, segment_image C image pmask rmr md sm = Except.ok out ∧
        MinimalEnclosing out.bbox (binarize pmask m) ∧
        BorderTouch out.bbox (binarize pmask m) := by
  intro C image pmask rmr md sm m hm hsing
  obtain ⟨p0, hp0⟩ := hsing.1
  have h : (trueSet (binarize pmask m)).Nonempty :=
    ⟨p0, mem_trueSet.mpr ⟨hp0.1, hp0.2.1, hp0.2.2⟩⟩
  refine ⟨_, segment_image_eq C image pmask rmr md sm m hm h, ?_, ?_⟩
  · dsimp only
    constructor
    · intro r c hr hc hd
      exact boxOf_encloses h (r, c) (mem_trueSet.mpr ⟨hr, hc, hd⟩)
    · intro b2 henc
      obtain ⟨pa, hpa, hea⟩ := boxOf_r0_attained h
      obtain ⟨pb, hpb, heb⟩ := boxOf_r1_attained h
      obtain ⟨pc, hpc, hec⟩ := boxOf_c0_attained h
      obtain ⟨pd, hpd, hed⟩ := boxOf_c1_attained h
      have ta := mem_trueSet.mp hpa
      have tb := mem_trueSet.mp hpb
      have tc := mem_trueSet.mp hpc
      have td := mem_trueSet.mp hpd
      have ca := henc pa.1 pa.2 ta.1 ta.2.1 ta.2.2
      have cb := henc pb.1 pb.2 tb.1 tb.2.1 tb.2.2
      have cc := henc pc.1 pc.2 tc.1 tc.2.1 tc.2.2
      have cd := henc pd.1 pd.2 td.1 td.2.1 td.2.2
      obtain ⟨ca1, ca2, ca3, ca4⟩ := ca
      obtain ⟨cb1, cb2, cb3, cb4⟩ := cb
      obtain ⟨cc1, cc2, cc3, cc4⟩ := cc
      obtain ⟨cd1, cd2, cd3, cd4⟩ := cd
      refine ⟨?_, ?_, ?_, ?_⟩ <;> omega
  · dsimp only
    have hea := boxOf_r0_attained h
    have heb := boxOf_r1_attained h
    have hec := boxOf_c0_attained h
    have hed := boxOf_c1_attained h
    obtain ⟨pa, hpa, ea⟩ := hea
    obtain ⟨pb, hpb, eb⟩ := heb
    obtain ⟨pc, hpc, ec⟩ := hec
    obtain ⟨pd, hpd, ed⟩ := hed
    have ka := boxOf_encloses h pa hpa
    have kb := boxOf_encloses h pb hpb
    have kc := boxOf_encloses h pc hpc
    have kd := boxOf_encloses h pd hpd
    obtain ⟨ka1, ka2, ka3, ka4⟩ := ka
    obtain ⟨kb1, kb2, kb3, kb4⟩ := kb
    obtain ⟨kc1, kc2, kc3, kc4⟩ := kc
    obtain ⟨kd1, kd2, kd3, kd4⟩ := kd
    have ta := (mem_trueSet.mp hpa).2.2
    have tb := (mem_trueSet.mp hpb).2.2
    have tc := (mem_trueSet.mp hpc).2.2
    have td := (mem_trueSet.mp hpd).2.2
    set bx := boxOf (binarize pmask m) h with hbx
    refine ⟨⟨pa.2 - bx.c0, ?_, ?_⟩, ⟨pb.2 - bx.c0, ?_, ?_⟩,
      ⟨pc.1 - bx.r0, ?_, ?_⟩, ⟨pd.1 - bx.r0, ?_, ?_⟩⟩
    · show pa.2 - bx.c0 < bx.c1 - bx.c0
      omega
    · show (binarize pmask m).data (bx.r0 + 0) (bx.c0 + (pa.2 - bx.c0)) = true
      have er : bx.r0 + 0 = pa.1 := by omega
      have eccol : bx.c0 + (pa.2 - bx.c0) = pa.2 := by omega
      rw [er, eccol]
      exact ta
    · show pb.2 - bx.c0 < bx.c1 - bx.c0
      omega
    · show (binarize pmask m).data (bx.r0 + (bx.r1 - bx.r0 - 1)) (bx.c0 + (pb.2 - bx.c0)) = true
      have er : bx.r0 + (bx.r1 - bx.r0 - 1) = pb.1 := by omega
      have eccol : bx.c0 + (pb.2 - bx.c0) = pb.2 := by omega
      rw [er, eccol]
      exact tb
    · show pc.1 - bx.r0 < bx.r1 - bx.r0
      omega
    · show (binarize pmask m).data (bx.r0 + (pc.1 - bx.r0)) (bx.c0 + 0) = true
      have er : bx.r0 + (pc.1 - bx.r0) = pc.1 := by omega
      have eccol : bx.c0 + 0 = pc.2 := by omega
      rw [er, eccol]
      exact tc
    · show pd.1 - bx.r0 < bx.r1 - bx.r0
      omega
    · show (binarize pmask m).data (bx.r0 + (pd.1 - bx.r0)) (bx.c0 + (bx.c1 - bx.c0 - 1)) = true
      have er : bx.r0 + (pd.1 - bx.r0) = pd.1 := by omega
      have eccol : bx.c0 + (bx.c1 - bx.c0 - 1) = pd.2 := by omega
      rw [er, eccol]
      exact td

lemma pmaskHalf_single_pixel : ∀ p : ℕ × ℕ, TruePix (binarize pmaskHalf 1) p → p = (0, 0) := by
  intro p hp
  obtain ⟨h1, h2, h3⟩ := hp
  have h21 : p.2 = 0 := by
    by_contra hne
    simp [binarize, pmaskHalf, hne] at h3
  have h11 : p.1 = 0 := by
    simpa [binarize, pmaskHalf] using h1
  exact Prod.ext h11 h21

/-- Witness for C5 at a concrete pmask whose binarization is the single
pixel (0,0). -/
theorem c5_bbox_minimal_enclosing_witness :
    ∃ out : SegOut, segment_image CTest imageT pmaskHalf 15 50 1 = Except.ok out ∧
      MinimalEnclosing out.bbox (binarize pmaskHalf 1) ∧
      BorderTouch out.bbox (binarize pmaskHalf 1) := by
  apply c5_bbox_minimal_enclosing CTest imageT pmaskHalf 15 50 1 1 (by decide)
  constructor
  · exact ⟨(0, 0), by decide⟩
  · intro p q hp hq
    rw [pmaskHalf_single_pixel p hp, pmaskHalf_single_pixel q hq]
    refine ⟨[(0, 0)], rfl, rfl, List.chain'_singleton _, ?_⟩
    intro x hx
    rw [List.mem_singleton] at hx
    subst hx
    decide
